import Mathlib

/-!
Shallow embedding of `nav/search_index.js` (the incremental search matcher /
renderer of the dnd5eloot site scripts), together with theorems checking the
natural-language specification against it.

Modelling conventions:
* JavaScript numbers are modelled as exact rationals (`ℚ`); the scores here
  are tiny fractions for which the float rounding is not what the claims are
  about.
* The two regexes `new RegExp('^' + query, 'i')` and `new RegExp(query, 'i')`
  are embedded as token-list matchers.  A query character compiles to a
  literal token, `.` compiles to the any-character token, and a query that
  uses any other regex metacharacter is outside the model
  (`compile_query` returns `none` for it).
* `title.toLowerCase` on line 230 of the source is an uncalled method
  reference, not a string; when the sort comparator applies `>`/`<` to it,
  JavaScript coerces the (shared) function object to its source string, which
  is the same string for every entry.  The embedding stores that constant
  string in the `title_lc` field.
* The keyup handler plus the clear handler form a state machine over the
  widget state (input value, `sel_idx`, results display, last navigation).
-/

namespace SearchIdx

section
-- The Batteries rational-number operations are `@[irreducible]`, which blocks
-- `decide` on concrete score computations; re-marking them `semireducible`
-- for this file restores kernel evaluation.
attribute [local semireducible] Rat.mul Rat.inv Rat.add Rat.sub

/-- A compiled pattern token: a literal character, or `.` (any character
except a line terminator), matched case-insensitively per the `'i'` flag. -/
inductive Tok where
  | lit (c : Char)
  | dot
deriving Repr, DecidableEq

/-- Whether one pattern token matches one character (case-insensitive flag:
both sides lowercased; `.` matches anything but a line terminator). -/
def tok_match (t : Tok) (c : Char) : Bool :=
  match t with
  | .lit l => l.toLower == c.toLower
  | .dot => !(c == '\n' || c == '\r' || c == '\u2028' || c == '\u2029')

/-- Regex metacharacters other than `.`: a query containing one of these
builds a regex whose behaviour the embedding does not model. -/
def unsupported_char (c : Char) : Bool :=
  c ∈ ['\\', '^', '$', '*', '+', '?', '(', ')', '[', ']', '|',
       Char.ofNat 123, Char.ofNat 125]

/-- Compile one character of the query string interpolated into
`new RegExp(query, 'i')` (source lines 215-216). -/
def compile_char (c : Char) : Option Tok :=
  if c == '.' then some Tok.dot
  else if unsupported_char c then none
  else some (Tok.lit c)

/-- Compile the whole query string into a token list. -/
def compile_query (q : String) : Option (List Tok) :=
  q.data.mapM compile_char

/-- Anchored match: does the pattern match at the very start of the text?
This is `lead.test(title)` for `lead = new RegExp('^' + query, 'i')`. -/
def match_toks : List Tok → List Char → Bool
  | [], _ => true
  | _ :: _, [] => false
  | t :: ts, c :: cs => tok_match t c && match_toks ts cs

/-- Unanchored search: does the pattern match anywhere in the text?
This is `partial.test(title)` for `partial = new RegExp(query, 'i')`. -/
def search_toks (pat : List Tok) : List Char → Bool
  | [] => match_toks pat []
  | c :: cs => match_toks pat (c :: cs) || search_toks pat cs

/-- The score of one title (source lines 220-224): `(len q / len title) * 10`
on a lead match, `len q / len title` on a partial match, else `0`. -/
def score_of (pat : List Tok) (qlen : Nat) (title : String) : ℚ :=
  if match_toks pat title.data then ((qlen : ℚ) / (title.length : ℚ)) * 10
  else if search_toks pat title.data then (qlen : ℚ) / (title.length : ℚ)
  else 0

/-- One candidate record pushed on source lines 226-231. -/
structure Entry where
  title : String
  url : String
  score : ℚ
  title_lc : String
deriving Repr, DecidableEq

/-- The value the `title_lc` field actually holds: line 230 reads
`title.toLowerCase` without calling it, so the field is the (shared)
`String.prototype.toLowerCase` function object; the comparator's `>`/`<`
coerce it to the same source string for every entry. -/
def toLowerCase_ref : String := "function toLowerCase() \x7b [native code] \x7d"

/-- The candidate list built by the `Object.keys(site_index).forEach` loop
(source lines 219-233), in index iteration order. -/
def candidates (pat : List Tok) (qlen : Nat) (idx : List (String × String)) :
    List Entry :=
  idx.filterMap (fun kv =>
    let score := score_of pat qlen kv.1
    if 0 < score then
      some { title := kv.1, url := kv.2, score := score,
             title_lc := toLowerCase_ref }
    else none)

/-- JavaScript string comparison `a < b`: lexicographic by code unit
(code point for the characters appearing here). -/
def str_ltb : List Char → List Char → Bool
  | _, [] => false
  | [], _ :: _ => true
  | a :: as, b :: bs =>
    if a < b then true
    else if b < a then false
    else str_ltb as bs

/-- The sort comparator of source lines 235-241; the `title_lc` comparisons
are JavaScript string comparisons of the coerced method references. -/
def js_cmp (a b : Entry) : Int :=
  if a.score > b.score then -1
  else if a.score < b.score then 1
  else if str_ltb b.title_lc.data a.title_lc.data then 1
  else if str_ltb a.title_lc.data b.title_lc.data then -1
  else 0

/-- `Array.prototype.sort` with a consistent comparator is specified to
produce the unique stable order under the induced total preorder; the induced
`le` is `js_cmp a b ≤ 0`. -/
def js_le (a b : Entry) : Prop := js_cmp a b ≤ 0

instance : DecidableRel js_le :=
  fun a b => inferInstanceAs (Decidable (js_cmp a b ≤ 0))

/-- The ranked list produced by one search pass (source lines 219-244):
build candidates, sort when non-empty, then truncate to 10.  The sort is
embedded as a stable insertion sort, which under a consistent comparator
produces exactly the list `Array.prototype.sort` is specified to produce. -/
def ranked (pat : List Tok) (qlen : Nat) (idx : List (String × String)) :
    List Entry :=
  let list := candidates pat qlen idx
  if 0 < list.length then
    let sorted := list.insertionSort js_le
    if 10 < sorted.length then sorted.take 10 else sorted
  else list

/-- The full matcher as a function of the raw query string: `none` when the
query uses regex features outside the model. -/
def search_list (q : String) (idx : List (String × String)) :
    Option (List Entry) :=
  (compile_query q).map (fun pat => ranked pat q.length idx)

/-- Lowercase a string to a character list (spec wording: case-insensitive
comparison is comparison of the lowercased strings). -/
def lower_str (s : String) : List Char := s.data.map Char.toLower

/-- Modelled from the spec: `t` contains `q` case-insensitively. -/
def ci_contains (q t : String) : Prop := lower_str q <:+: lower_str t

/-- Modelled from the spec: `t` starts with `q` case-insensitively. -/
def ci_starts (q t : String) : Prop := lower_str q <+: lower_str t

/-- A query whose characters all compile to literal tokens: no regex
metacharacters at all (not even `.`). -/
def plain_query (q : String) : Prop :=
  ∀ c ∈ q.data, compile_char c = some (Tok.lit c)

/-- The widget state: the text in the `index_query` input, the module-level
`sel_idx` variable (`-1` is "none"), the rendered results list (`none` when
`index_results` is empty and hidden), and the URL last passed to
`window.location.assign`. -/
structure SState where
  query : String
  sel_idx : Int
  shown : Option (List Entry)
  nav : Option String
deriving Repr, DecidableEq

/-- State after page load: `sel_idx = -1` (line 178) and the `dom:loaded`
handler has run `clear_search_index` (lines 183-186). -/
def init : SState :=
  { query := "", sel_idx := -1, shown := none, nav := none }

/-- `clear_search_index` (source lines 205-208): empty the input, empty and
hide the results.  It does not touch `sel_idx`. -/
def clear_search_index (s : SState) : SState :=
  { s with query := "", shown := none }

/-- `list[i]` on an array: `none` models the `undefined` an out-of-range
index would produce. -/
def js_get (l : List Entry) (i : Int) : Option Entry :=
  if 0 ≤ i then l.get? i.toNat else none

/-- The keyup handler `search_index` (source lines 213-266), as a function of
the index, the previous state, `event.code` and the input value read by
`getValue()`.  When the query uses regex features outside the model the
transition is left as a stutter step. -/
def search_index (idx : List (String × String)) (s : SState)
    (code val : String) : SState :=
  match compile_query val with
  | none => s
  | some pat =>
    let list := ranked pat val.length idx
    if 0 < list.length then
      if code = "ArrowDown" then
        { s with query := val, shown := some list,
                 sel_idx := min (s.sel_idx + 1) ((list.length : Int) - 1) }
      else if code = "ArrowUp" then
        { s with query := val, shown := some list,
                 sel_idx := max (s.sel_idx - 1) 0 }
      else if code = "Enter" then
        let url := if s.sel_idx = -1 then (js_get list 0).map Entry.url
                   else (js_get list s.sel_idx).map Entry.url
        clear_search_index { s with query := val, nav := url }
      else
        { s with query := val, shown := some list, sel_idx := -1 }
    else
      { s with query := val, shown := none }

/-- An input event: the outside-click / `/`-keybinding clear, or a keyup on
the query input carrying `event.code` and the current input value. -/
inductive Ev where
  | clear
  | key (code val : String)

/-- One event step. -/
def step (idx : List (String × String)) (s : SState) (e : Ev) : SState :=
  match e with
  | .clear => clear_search_index s
  | .key code val => search_index idx s code val

/-- Event well-formedness: the browser delivers the input value current at
the keyup, so the arrow and enter keys (which do not edit the input) carry
the unchanged query; and the value is a query the regex model covers. -/
def EvOK (s : SState) (e : Ev) : Prop :=
  match e with
  | .clear => True
  | .key code val =>
    (compile_query val).isSome = true ∧
    ((code = "ArrowDown" ∨ code = "ArrowUp" ∨ code = "Enter") → val = s.query)

/-- States reachable from page load by well-formed events. -/
inductive Reach (idx : List (String × String)) : SState → Prop where
  | start : Reach idx init
  | next : ∀ s e, Reach idx s → EvOK s e → Reach idx (step idx s e)

/-- The ranked list the current query derives (the "current ranked list"). -/
def cur_list (idx : List (String × String)) (s : SState) : List Entry :=
  (search_list s.query idx).getD []

/-- The invariant maintained across events: the cursor is at least `-1`, and
whenever the current query derives a non-empty ranked list the cursor is
below its length. -/
def Inv (idx : List (String × String)) (s : SState) : Prop :=
  -1 ≤ s.sel_idx ∧ (cur_list idx s ≠ [] → s.sel_idx < ((cur_list idx s).length : Int))

/-- The anchor node built by `render_link` (source lines 285-288). -/
structure LinkNode where
  href : String
  text : String
deriving Repr, DecidableEq

/-- The list-item node built by `render_item` (source lines 289-296): its
class attribute is `selected` exactly when the match carried the flag. -/
structure ItemNode where
  cls : Option String
  link : LinkNode
deriving Repr, DecidableEq

/-- `render_link` (source lines 285-288). -/
def render_link (m : Entry) : LinkNode :=
  { href := m.url, text := m.title }

/-- `render_item` (source lines 289-296), taking the `selected` flag the
entry carries at render time. -/
def render_item (selected : Bool) (link : LinkNode) : ItemNode :=
  { cls := if selected then some "selected" else none, link := link }

/-- The `list[sel_idx]['selected'] = true` marking of source lines 274-276:
when the cursor is in range, exactly the entry at the cursor position
carries the flag; otherwise no entry does. -/
def mark_selected (sel_idx : Int) (list : List Entry) : List (Entry × Bool) :=
  if 0 ≤ sel_idx ∧ sel_idx < (list.length : Int) then
    list.enum.map (fun p => (p.2, p.1 = sel_idx.toNat))
  else
    list.map (fun e => (e, false))

/-- `render_results` (source lines 271-284): mark the selected entry, then
render each entry as a list item wrapping its link. -/
def render_results (sel_idx : Int) (list : List Entry) : List ItemNode :=
  (mark_selected sel_idx list).map (fun p => render_item p.2 (render_link p.1))

/-- The search pass together with its implicit dependence on the
page-supplied global `site_index`: when the page never defined it,
`Object.keys(site_index)` on source line 219 throws a `TypeError`, modelled
as `Except.error "TypeError"` (the handler aborts and updates nothing). -/
def search_list_checked (q : String)
    (idx : Option (List (String × String))) : Except String (List Entry) :=
  match idx with
  | none => Except.error "TypeError"
  | some l =>
    match search_list q l with
    | none => Except.error "unmodelled regex feature"
    | some r => Except.ok r

/-- A one-entry index used for concrete runs. -/
def idx_a : List (String × String) := [("a", "/a")]

/-- An index with two titles of equal score under the query `o`, listed in
reverse alphabetical order. -/
def idx_tie : List (String × String) := [("bo", "/b"), ("ao", "/a")]

/-- State after typing `a` into the empty widget. -/
def st_typed : SState := step idx_a init (.key "KeyA" "a")

/-- State after then pressing `ArrowDown`: the single result is selected. -/
def st_arrowed : SState := step idx_a st_typed (.key "ArrowDown" "a")

/-- State after then clicking outside the widget: the clear handler runs. -/
def st_cleared : SState := step idx_a st_arrowed .clear

/-! ### Order lemmas for the sort comparator -/

theorem str_ltb_irrefl : ∀ x, str_ltb x x = false := by
  intro x
  induction x with
  | nil => rfl
  | cons a as ih => simp [str_ltb, ih]

theorem str_ltb_trans : ∀ x y z, str_ltb x y = true → str_ltb y z = true →
    str_ltb x z = true := by
  intro x
  induction x with
  | nil =>
    intro y z hxy hyz
    cases y with
    | nil => simp [str_ltb] at hxy
    | cons b bs =>
      cases z with
      | nil => simp [str_ltb] at hyz
      | cons c cs => simp [str_ltb]
  | cons a as ih =>
    intro y z hxy hyz
    cases y with
    | nil => simp [str_ltb] at hxy
    | cons b bs =>
      cases z with
      | nil => simp [str_ltb] at hyz
      | cons c cs =>
        simp only [str_ltb] at hxy hyz ⊢
        by_cases hab : a < b
        · by_cases hbc : b < c
          · simp [lt_trans hab hbc]
          · by_cases hcb : c < b
            · simp [hbc, hcb] at hyz
            · have : b = c := le_antisymm (not_lt.mp hcb) (not_lt.mp hbc)
              subst this
              simp [hab]
        · by_cases hba : b < a
          · simp [hab, hba] at hxy
          · have hE : a = b := le_antisymm (not_lt.mp hba) (not_lt.mp hab)
            subst hE
            simp only [lt_irrefl, if_false] at hxy
            by_cases hbc : a < c
            · simp [hbc]
            · by_cases hcb : c < a
              · simp [hbc, hcb] at hyz
              · simp only [hbc, hcb, if_false] at hyz ⊢
                exact ih bs cs hxy hyz

theorem str_ltb_eq_of_not : ∀ x y, str_ltb x y = false → str_ltb y x = false →
    x = y := by
  intro x
  induction x with
  | nil =>
    intro y hxy _
    cases y with
    | nil => rfl
    | cons b bs => simp [str_ltb] at hxy
  | cons a as ih =>
    intro y hxy hyx
    cases y with
    | nil => simp [str_ltb] at hyx
    | cons b bs =>
      simp only [str_ltb] at hxy hyx
      by_cases hab : a < b
      · simp [hab] at hxy
      · by_cases hba : b < a
        · simp [hba] at hyx
        · have : a = b := le_antisymm (not_lt.mp hba) (not_lt.mp hab)
          subst this
          simp only [lt_irrefl, if_false] at hxy hyx
          rw [ih bs hxy hyx]

/-- The comparator-induced preorder, spelled out. -/
theorem js_le_iff (a b : Entry) : js_le a b ↔
    b.score < a.score ∨
    (a.score = b.score ∧ str_ltb b.title_lc.data a.title_lc.data = false) := by
  unfold js_le js_cmp
  split_ifs with h1 h2 h3 h4
  · exact iff_of_true (by norm_num) (Or.inl h1)
  · refine iff_of_false (by norm_num) ?_
    rintro (h | ⟨h, -⟩)
    · exact h1 h
    · rw [h] at h2
      exact absurd h2 (lt_irrefl _)
  · refine iff_of_false (by norm_num) ?_
    rintro (h | ⟨-, h⟩)
    · exact h1 h
    · rw [h3] at h
      cases h
  · refine iff_of_true (by norm_num) (Or.inr ⟨?_, ?_⟩)
    · exact le_antisymm (not_lt.mp h1) (not_lt.mp h2)
    · simpa using h3
  · refine iff_of_true le_rfl (Or.inr ⟨?_, ?_⟩)
    · exact le_antisymm (not_lt.mp h1) (not_lt.mp h2)
    · simpa using h3

instance : IsTrans Entry js_le := by
  constructor
  intro a b c hab hbc
  rw [js_le_iff] at hab hbc ⊢
  rcases hab with h | ⟨hab, tab⟩ <;> rcases hbc with h' | ⟨hbc, tbc⟩
  · exact Or.inl (lt_trans h' h)
  · exact Or.inl (by rw [← hbc]; exact h)
  · exact Or.inl (by rw [hab]; exact h')
  · refine Or.inr ⟨hab.trans hbc, ?_⟩
    by_cases hca : str_ltb c.title_lc.data a.title_lc.data = true
    · by_cases hba : str_ltb a.title_lc.data b.title_lc.data = true
      · rw [str_ltb_trans _ _ _ hca hba] at tbc
        cases tbc
      · have he : a.title_lc.data = b.title_lc.data :=
          str_ltb_eq_of_not _ _ (by simpa using hba) tab
        rw [← he, hca] at tbc
        cases tbc
    · simpa using hca

instance : IsTotal Entry js_le := by
  constructor
  intro a b
  rw [js_le_iff, js_le_iff]
  rcases lt_trichotomy a.score b.score with h | h | h
  · exact Or.inr (Or.inl h)
  · by_cases hl : str_ltb b.title_lc.data a.title_lc.data = true
    · by_cases hr : str_ltb a.title_lc.data b.title_lc.data = true
      · have hd := str_ltb_trans _ _ _ hl hr
        rw [str_ltb_irrefl] at hd
        cases hd
      · exact Or.inr (Or.inr ⟨h.symm, by simpa using hr⟩)
    · exact Or.inl (Or.inr ⟨h, by simpa using hl⟩)
  · exact Or.inl (Or.inl h)

/-! ### Regex matching vs. case-insensitive substring containment -/

theorem match_imp_search (pat : List Tok) (cs : List Char) :
    match_toks pat cs = true → search_toks pat cs = true := by
  cases cs with
  | nil => simp [search_toks]
  | cons c cs =>
    intro h
    simp [search_toks, h]

theorem match_lits_iff (l : List Char) : ∀ cs : List Char,
    (match_toks (l.map Tok.lit) cs = true ↔
      l.map Char.toLower <+: cs.map Char.toLower) := by
  induction l with
  | nil => intro cs; simp [match_toks]
  | cons a as ih =>
    intro cs
    cases cs with
    | nil => simp [match_toks]
    | cons c cs => simp [match_toks, tok_match, ih cs]

theorem search_lits_iff (l : List Char) : ∀ cs : List Char,
    (search_toks (l.map Tok.lit) cs = true ↔
      l.map Char.toLower <:+: cs.map Char.toLower) := by
  intro cs
  induction cs with
  | nil =>
    simp only [search_toks, match_lits_iff, List.map_nil, List.infix_nil]
    exact ⟨List.eq_nil_of_prefix_nil, fun h => h ▸ List.nil_prefix⟩
  | cons c cs ih =>
    simp only [search_toks, Bool.or_eq_true, match_lits_iff, ih, List.map_cons,
      List.infix_cons_iff]

theorem mapM_lits : ∀ l : List Char, (∀ c ∈ l, compile_char c = some (Tok.lit c)) →
    l.mapM compile_char = some (l.map Tok.lit) := by
  intro l
  induction l with
  | nil => intro _; rfl
  | cons c cs ih =>
    intro h
    simp only [List.mapM_cons, h c (by simp), Option.pure_def, Option.bind_eq_bind,
      Option.some_bind, ih (fun d hd => h d (by simp [hd])), List.map_cons]

theorem compile_plain {q : String} (hq : plain_query q) :
    compile_query q = some (q.data.map Tok.lit) :=
  mapM_lits q.data hq

instance (q : String) : Decidable (plain_query q) :=
  inferInstanceAs (Decidable (∀ c ∈ q.data, compile_char c = some (Tok.lit c)))

instance (q t : String) : Decidable (ci_starts q t) :=
  inferInstanceAs (Decidable (lower_str q <+: lower_str t))

instance (q t : String) : Decidable (ci_contains q t) :=
  inferInstanceAs (Decidable (lower_str q <:+: lower_str t))

/-- For a metacharacter-free query the scoring reduces to the spec formula. -/
theorem score_of_lits (q t : String) :
    score_of (q.data.map Tok.lit) q.length t =
      if ci_starts q t then ((q.length : ℚ) / (t.length : ℚ)) * 10
      else if ci_contains q t then (q.length : ℚ) / (t.length : ℚ)
      else 0 := by
  unfold score_of ci_starts ci_contains lower_str
  exact if_congr (match_lits_iff q.data t.data) rfl
    (if_congr (search_lits_iff q.data t.data) rfl rfl)

theorem score_of_qlen_zero (pat : List Tok) (t : String) :
    score_of pat 0 t = 0 := by
  unfold score_of
  split_ifs <;> simp

/-- For a metacharacter-free, non-empty query, a positive score is exactly
case-insensitive containment. -/
theorem length_pos_of_contains {q t : String} (hq : 0 < q.length)
    (hc : ci_contains q t) : 0 < t.length := by
  have hqd : q.data ≠ [] := by
    intro h
    rw [String.length, h] at hq
    exact absurd hq (by simp)
  have hlt : lower_str t ≠ [] := by
    intro h
    unfold ci_contains at hc
    rw [h, List.infix_nil] at hc
    exact hqd (by simpa [lower_str] using hc)
  have htd : t.data ≠ [] := fun h => hlt (by simp [lower_str, h])
  rw [String.length]
  exact List.length_pos.mpr htd

theorem score_pos_iff {q : String} (t : String) (hq : 0 < q.length) :
    0 < score_of (q.data.map Tok.lit) q.length t ↔ ci_contains q t := by
  rw [score_of_lits]
  by_cases hs : ci_starts q t
  · have hc : ci_contains q t := hs.isInfix
    have ht : 0 < t.length := length_pos_of_contains hq hc
    have h1 : (0 : ℚ) < (q.length : ℚ) / (t.length : ℚ) := by
      apply div_pos <;> exact_mod_cast (by omega)
    simp only [hs, if_true, hc, iff_true]
    linarith
  · simp only [hs, if_false]
    by_cases hc : ci_contains q t
    · have ht : 0 < t.length := length_pos_of_contains hq hc
      simp only [hc, if_true, iff_true]
      apply div_pos <;> exact_mod_cast (by omega)
    · simp [hc]

/-! ### Candidate-list and ranked-list lemmas -/

theorem candidates_eq (pat : List Tok) (qlen : Nat) (idx : List (String × String)) :
    candidates pat qlen idx = idx.filterMap (fun kv =>
      if 0 < score_of pat qlen kv.1 then
        some ⟨kv.1, kv.2, score_of pat qlen kv.1, toLowerCase_ref⟩
      else none) := rfl

theorem score_pos_of_mem_candidates {pat qlen idx e}
    (h : e ∈ candidates pat qlen idx) : 0 < score_of pat qlen e.title := by
  rw [candidates_eq] at h
  rw [List.mem_filterMap] at h
  obtain ⟨kv, -, hkv⟩ := h
  rw [Option.ite_none_right_eq_some, Option.some.injEq] at hkv
  obtain ⟨hp, he⟩ := hkv
  rw [← he]
  exact hp

theorem mem_candidates_title (pat : List Tok) (qlen : Nat)
    (idx : List (String × String)) (t : String) :
    t ∈ (candidates pat qlen idx).map Entry.title ↔
      (∃ u, (t, u) ∈ idx) ∧ 0 < score_of pat qlen t := by
  rw [candidates_eq]
  constructor
  · intro h
    rw [List.mem_map] at h
    obtain ⟨e, he, het⟩ := h
    rw [List.mem_filterMap] at he
    obtain ⟨kv, hkv, hkve⟩ := he
    rw [Option.ite_none_right_eq_some, Option.some.injEq] at hkve
    obtain ⟨hp, he⟩ := hkve
    rw [← he] at het
    simp only at het
    subst het
    exact ⟨⟨kv.2, by simpa using hkv⟩, hp⟩
  · rintro ⟨⟨u, hu⟩, hp⟩
    rw [List.mem_map]
    refine ⟨⟨t, u, score_of pat qlen t, toLowerCase_ref⟩, ?_, rfl⟩
    rw [List.mem_filterMap]
    exact ⟨(t, u), hu, by rw [if_pos hp]⟩

theorem ranked_eq_take (pat : List Tok) (qlen : Nat) (idx : List (String × String)) :
    ranked pat qlen idx = ((candidates pat qlen idx).insertionSort js_le).take 10 := by
  unfold ranked
  by_cases h : 0 < (candidates pat qlen idx).length
  · simp only [h, if_true]
    by_cases h10 : 10 < ((candidates pat qlen idx).insertionSort js_le).length
    · rw [if_pos h10]
    · rw [if_neg h10, List.take_of_length_le (by omega)]
  · have hnil : candidates pat qlen idx = [] :=
      List.eq_nil_of_length_eq_zero (by omega)
    simp [hnil]

theorem length_ranked_le (pat : List Tok) (qlen : Nat)
    (idx : List (String × String)) : (ranked pat qlen idx).length ≤ 10 := by
  rw [ranked_eq_take, List.length_take]
  omega

theorem mem_candidates_of_mem_ranked {pat qlen idx e}
    (h : e ∈ ranked pat qlen idx) : e ∈ candidates pat qlen idx := by
  rw [ranked_eq_take] at h
  have h2 := (List.take_sublist 10 _).subset h
  exact (List.mem_insertionSort js_le).mp h2

theorem ranked_pairwise (pat : List Tok) (qlen : Nat)
    (idx : List (String × String)) : (ranked pat qlen idx).Pairwise js_le := by
  rw [ranked_eq_take]
  exact List.Pairwise.sublist (List.take_sublist 10 _)
    (List.sorted_insertionSort js_le _)

theorem candidates_qlen_zero (pat : List Tok) (idx : List (String × String)) :
    candidates pat 0 idx = [] := by
  rw [candidates_eq, List.filterMap_eq_nil_iff]
  intro kv _
  rw [score_of_qlen_zero]
  simp

theorem ranked_qlen_zero (pat : List Tok) (idx : List (String × String)) :
    ranked pat 0 idx = [] := by
  rw [ranked_eq_take, candidates_qlen_zero]
  rfl

theorem search_list_empty_query (idx : List (String × String)) :
    search_list "" idx = some [] := by
  unfold search_list
  have h : compile_query "" = some [] := rfl
  rw [h, Option.map_some']
  rw [show ("" : String).length = 0 from rfl, ranked_qlen_zero]

/-! ### The cursor invariant -/

theorem cur_list_of_compile {idx : List (String × String)} {s : SState}
    {pat : List Tok} (h : compile_query s.query = some pat) :
    cur_list idx s = ranked pat s.query.length idx := by
  unfold cur_list search_list
  rw [h, Option.map_some']
  rfl

theorem cur_list_empty_query {idx : List (String × String)} {s : SState}
    (h : s.query = "") : cur_list idx s = [] := by
  unfold cur_list
  rw [h, search_list_empty_query]
  rfl

theorem inv_init (idx : List (String × String)) : Inv idx init := by
  constructor
  · norm_num [init]
  · intro h
    exact absurd (cur_list_empty_query rfl) h

theorem inv_clear {idx : List (String × String)} {s : SState} (hs : Inv idx s) :
    Inv idx (clear_search_index s) := by
  refine ⟨hs.1, fun h => ?_⟩
  exact absurd (cur_list_empty_query rfl) h

theorem getD_search_list {idx : List (String × String)} {q : String}
    {pat : List Tok} (h : compile_query q = some pat) :
    (search_list q idx).getD [] = ranked pat q.length idx := by
  unfold search_list
  rw [h, Option.map_some']
  rfl

theorem inv_step {idx : List (String × String)} {s : SState} {e : Ev}
    (hs : Inv idx s) (he : EvOK s e) : Inv idx (step idx s e) := by
  cases e with
  | clear => exact inv_clear hs
  | key code val =>
    obtain ⟨hc, harrow⟩ := he
    obtain ⟨pat, hpat⟩ := Option.isSome_iff_exists.mp hc
    have hmm := hs.1
    simp only [step, search_index, hpat]
    by_cases hlen : 0 < (ranked pat val.length idx).length
    · rw [if_pos hlen]
      by_cases hAD : code = "ArrowDown"
      · rw [if_pos hAD]
        constructor
        · dsimp only
          omega
        · intro _
          simp only [cur_list, getD_search_list hpat]
          omega
      · rw [if_neg hAD]
        by_cases hAU : code = "ArrowUp"
        · rw [if_pos hAU]
          have hval : val = s.query := harrow (Or.inr (Or.inl hAU))
          have hcur : cur_list idx s = ranked pat val.length idx := by
            rw [hval] at hpat ⊢
            exact cur_list_of_compile hpat
          have hlt : s.sel_idx < ((ranked pat val.length idx).length : Int) := by
            rw [← hcur]
            exact hs.2 (by
              rw [hcur]
              exact fun hnil => by simp [hnil] at hlen)
          constructor
          · dsimp only
            omega
          · intro _
            simp only [cur_list, getD_search_list hpat]
            omega
        · rw [if_neg hAU]
          by_cases hEN : code = "Enter"
          · rw [if_pos hEN]
            refine ⟨hmm, fun h => ?_⟩
            exact absurd (cur_list_empty_query rfl) h
          · rw [if_neg hEN]
            constructor
            · dsimp only
              omega
            · intro _
              simp only [cur_list, getD_search_list hpat]
              omega
    · rw [if_neg hlen]
      refine ⟨hmm, fun h => ?_⟩
      have hnil : ranked pat val.length idx = [] :=
        List.eq_nil_of_length_eq_zero (by omega)
      simp only [cur_list, getD_search_list hpat] at h
      exact absurd hnil h

theorem reach_inv {idx : List (String × String)} {s : SState}
    (h : Reach idx s) : Inv idx s := by
  induction h with
  | start => exact inv_init idx
  | next s e _ he ih => exact inv_step ih he

/-! ### Concrete reachable runs -/

theorem reach_st_typed : Reach idx_a st_typed :=
  Reach.next _ _ Reach.start ⟨by decide, fun h => absurd h (by decide)⟩

theorem reach_st_arrowed : Reach idx_a st_arrowed :=
  Reach.next _ _ reach_st_typed ⟨by decide, fun _ => by decide⟩

theorem reach_st_cleared : Reach idx_a st_cleared :=
  Reach.next _ _ reach_st_arrowed trivial

/-! ### The claims -/

/-- C2: the ranked output is claimed to break exact score ties by
case-insensitive title ascending.  Evaluating the code on the index
`{"bo": "/b", "ao": "/a"}` with query `o`: both titles score `1/2`, yet the
output keeps insertion order `["bo", "ao"]` although `"ao"` precedes `"bo"`
lexicographically — the uncalled `title.toLowerCase` method reference makes
every tie comparison return `0`, so the stable sort never reorders ties. -/
theorem C2_tie_break_bug :
    search_list "o" idx_tie =
      some [⟨"bo", "/b", (1 : ℚ)/2, toLowerCase_ref⟩,
            ⟨"ao", "/a", (1 : ℚ)/2, toLowerCase_ref⟩] ∧
    str_ltb (lower_str "ao") (lower_str "bo") = true := by
  constructor
  · decide
  · decide

/-- C3 counterexample: for the query `.` (one regex metacharacter) and the
title `xy`, the title neither starts with nor contains `.`, so the claimed
scoring assigns `0` and excludes it; the code builds the regex `/./i`, which
matches, assigns score `(1/2)*10 = 5`, and includes the title. -/
theorem C3_counterexample :
    compile_query "." = some [Tok.dot] ∧
    ¬ ci_starts "." "xy" ∧ ¬ ci_contains "." "xy" ∧
    score_of [Tok.dot] ".".length "xy" = 5 ∧
    "xy" ∈ (candidates [Tok.dot] ".".length [("xy", "/xy")]).map Entry.title := by
  refine ⟨by decide, by decide, by decide, by decide, by decide⟩

/-- C3 (amended to queries without regex metacharacters): the query compiles
to its literal characters, the score of every title is
`(len q / len t) * 10` on a case-insensitive prefix match, `len q / len t`
on a mere containment match and `0` otherwise, and a title enters the
candidate list exactly when it occurs in the index and its score is
positive. -/
theorem C3_score_formula (q t : String) (idx : List (String × String))
    (hq : plain_query q) :
    compile_query q = some (q.data.map Tok.lit) ∧
    score_of (q.data.map Tok.lit) q.length t =
      (if ci_starts q t then ((q.length : ℚ) / (t.length : ℚ)) * 10
       else if ci_contains q t then (q.length : ℚ) / (t.length : ℚ)
       else 0) ∧
    (t ∈ (candidates (q.data.map Tok.lit) q.length idx).map Entry.title ↔
      (∃ u, (t, u) ∈ idx) ∧ 0 < score_of (q.data.map Tok.lit) q.length t) :=
  ⟨compile_plain hq, score_of_lits q t, mem_candidates_title _ _ idx t⟩

/-- C3 witness: the amended scoring claim at query `a`, title `ab`,
index `{"ab": "/ab"}`. -/
theorem C3_score_formula_witness :
    compile_query "a" = some ("a".data.map Tok.lit) ∧
    score_of ("a".data.map Tok.lit) "a".length "ab" =
      (if ci_starts "a" "ab" then (("a".length : ℚ) / (("ab" : String).length : ℚ)) * 10
       else if ci_contains "a" "ab" then ("a".length : ℚ) / (("ab" : String).length : ℚ)
       else 0) ∧
    ("ab" ∈ (candidates ("a".data.map Tok.lit) "a".length [("ab", "/ab")]).map Entry.title ↔
      (∃ u, (("ab" : String), u) ∈ [(("ab" : String), ("/ab" : String))]) ∧
        0 < score_of ("a".data.map Tok.lit) "a".length "ab") :=
  C3_score_formula "a" "ab" [("ab", "/ab")] (by decide)

/-- C4: for every pattern, query length and index, the ranked list of one
search pass has at most 10 entries and equals the first 10 entries of the
sorted candidate list. -/
theorem C4_truncation (pat : List Tok) (qlen : Nat) (idx : List (String × String)) :
    (ranked pat qlen idx).length ≤ 10 ∧
    ranked pat qlen idx = ((candidates pat qlen idx).insertionSort js_le).take 10 :=
  ⟨length_ranked_le pat qlen idx, ranked_eq_take pat qlen idx⟩

/-- C1 counterexample: with the index `{"ab": "/ab"}` and the query `.`,
the title `ab` appears in the ranked output (the regex `/^./i` matches it,
score 5) although `ab` does not contain `.` case-insensitively. -/
theorem C1_counterexample :
    search_list "." [("ab", "/ab")] =
      some [⟨"ab", "/ab", 5, toLowerCase_ref⟩] ∧
    ¬ ci_contains "." "ab" := by
  constructor
  · decide
  · decide

/-- C1 (amended to non-empty queries without regex metacharacters, and with
completeness read against the pre-truncation candidate list): a title of the
index enters the candidate list iff it contains the query case-insensitively,
and every entry of the ranked output contains the query case-insensitively. -/
theorem C1_filter_sound_complete (q t : String) (idx : List (String × String))
    (l : List Entry) (hq : plain_query q) (h0 : 0 < q.length)
    (hl : search_list q idx = some l) :
    ((∃ u, (t, u) ∈ idx) →
      (t ∈ (candidates (q.data.map Tok.lit) q.length idx).map Entry.title ↔
        ci_contains q t)) ∧
    ∀ e ∈ l, ci_contains q e.title := by
  have hcq := compile_plain hq
  have hleq : l = ranked (q.data.map Tok.lit) q.length idx := by
    unfold search_list at hl
    rw [hcq, Option.map_some'] at hl
    exact (Option.some.inj hl).symm
  constructor
  · intro hex
    rw [mem_candidates_title]
    constructor
    · rintro ⟨-, hp⟩
      exact (score_pos_iff t h0).mp hp
    · intro hc
      exact ⟨hex, (score_pos_iff t h0).mpr hc⟩
  · intro e he
    rw [hleq] at he
    have hp := score_pos_of_mem_candidates (mem_candidates_of_mem_ranked he)
    exact (score_pos_iff e.title h0).mp hp

/-- C1 witness: the amended filtering claim at query `a`, title `ab`,
index `{"ab": "/ab"}`. -/
theorem C1_filter_witness :
    ((∃ u, (("ab" : String), u) ∈ [(("ab" : String), ("/ab" : String))]) →
      ("ab" ∈ (candidates ("a".data.map Tok.lit) "a".length
        [("ab", "/ab")]).map Entry.title ↔ ci_contains "a" "ab")) ∧
    ∀ e ∈ [(⟨"ab", "/ab", 5, toLowerCase_ref⟩ : Entry)], ci_contains "a" e.title :=
  C1_filter_sound_complete "a" "ab" [("ab", "/ab")]
    [⟨"ab", "/ab", 5, toLowerCase_ref⟩] (by decide) (by decide) (by decide)

/-- C5 counterexample: after typing `a`, pressing `ArrowDown` and clicking
outside the widget (a reachable run), the cursor is `0` while the current
ranked list (for the now-empty query) is empty, so the cursor is neither
"none" nor a valid index into the current ranked list. -/
theorem C5_counterexample :
    Reach idx_a st_cleared ∧
    ¬ (st_cleared.sel_idx = -1 ∨
       (0 ≤ st_cleared.sel_idx ∧
        st_cleared.sel_idx < ((cur_list idx_a st_cleared).length : Int))) :=
  ⟨reach_st_cleared, by decide⟩

/-- C5 (amended): in every reachable state the cursor is at least `-1`, and
whenever the ranked list derived from the current query is non-empty the
cursor is "none" (`-1`) or a valid index into it. -/
theorem C5_cursor_bounds (idx : List (String × String)) (s : SState)
    (h : Reach idx s) :
    -1 ≤ s.sel_idx ∧
    (cur_list idx s ≠ [] →
      s.sel_idx = -1 ∨
      (0 ≤ s.sel_idx ∧ s.sel_idx < ((cur_list idx s).length : Int))) := by
  obtain ⟨h1, h2⟩ := reach_inv h
  refine ⟨h1, fun hne => ?_⟩
  have := h2 hne
  omega

/-- C5 witness: the amended cursor-bounds claim at the reachable state
reached by typing `a` and pressing `ArrowDown`. -/
theorem C5_cursor_bounds_witness :
    -1 ≤ st_arrowed.sel_idx ∧
    (cur_list idx_a st_arrowed ≠ [] →
      st_arrowed.sel_idx = -1 ∨
      (0 ≤ st_arrowed.sel_idx ∧
       st_arrowed.sel_idx < ((cur_list idx_a st_arrowed).length : Int))) :=
  C5_cursor_bounds idx_a st_arrowed reach_st_arrowed

/-- C7 counterexample: in the reachable state with the single result
selected (`sel_idx = 0`), the outside-click clear empties and hides the
results but leaves the cursor at `0`, not "none". -/
theorem C7_counterexample :
    Reach idx_a st_arrowed ∧
    st_arrowed.shown ≠ none ∧
    (step idx_a st_arrowed Ev.clear).sel_idx = 0 ∧ (0 : Int) ≠ -1 :=
  ⟨reach_st_arrowed, by decide, by decide, by decide⟩

/-- C7 (amended): a non-arrow, non-enter keyup resets the cursor to "none"
when the recomputed ranked list is non-empty; the clear path (outside click,
explicit clear, and the clear after an Enter commit) leaves the cursor
untouched. -/
theorem C7_cursor_reset :
    (∀ (idx : List (String × String)) (s : SState) (code val : String)
        (pat : List Tok),
      compile_query val = some pat →
      code ≠ "ArrowDown" → code ≠ "ArrowUp" → code ≠ "Enter" →
      ranked pat val.length idx ≠ [] →
      (search_index idx s code val).sel_idx = -1) ∧
    (∀ s : SState, (clear_search_index s).sel_idx = s.sel_idx) := by
  constructor
  · intro idx s code val pat hpat h1 h2 h3 hne
    simp only [search_index, hpat]
    rw [if_pos (List.length_pos.mpr hne), if_neg h1, if_neg h2, if_neg h3]
  · intro s
    rfl

/-- C7 witness: typing `a` into the empty widget resets the cursor to
"none"; clearing from the arrow-selected state keeps the cursor value. -/
theorem C7_cursor_reset_witness :
    (search_index idx_a init "KeyA" "a").sel_idx = -1 ∧
    (clear_search_index st_arrowed).sel_idx = st_arrowed.sel_idx :=
  ⟨C7_cursor_reset.1 idx_a init "KeyA" "a" [Tok.lit 'a']
      (by decide) (by decide) (by decide) (by decide) (by decide),
    C7_cursor_reset.2 st_arrowed⟩

/-- C8 counterexample: with the page-supplied `site_index` missing, the
search pass does not produce an empty candidate list — `Object.keys` throws
a `TypeError` and the handler aborts. -/
theorem C8_counterexample :
    search_list_checked "" none = Except.error "TypeError" ∧
    search_list_checked "" none ≠ Except.ok [] :=
  ⟨rfl, fun h => Except.noConfusion h⟩

/-- C8 (amended to indexes that are present): the empty query yields the
empty ranked list on every index including the empty one, and whenever the
recomputed ranked list is empty the keyup handler empties and hides the
results display instead of leaving it stale. -/
theorem C8_no_results :
    (∀ idx : List (String × String), search_list "" idx = some []) ∧
    (∀ (idx : List (String × String)) (s : SState) (code val : String)
        (pat : List Tok),
      compile_query val = some pat → ranked pat val.length idx = [] →
      (search_index idx s code val).shown = none) := by
  constructor
  · exact search_list_empty_query
  · intro idx s code val pat hpat hnil
    simp only [search_index, hpat]
    rw [if_neg (by simp [hnil])]

/-- C8 witness: the empty query on the one-entry index yields the empty
list, and a keyup whose query matches nothing hides the display. -/
theorem C8_no_results_witness :
    search_list "" idx_a = some [] ∧
    (search_index idx_a init "KeyZ" "zzz").shown = none :=
  ⟨C8_no_results.1 idx_a,
    C8_no_results.2 idx_a init "KeyZ" "zzz"
      [Tok.lit 'z', Tok.lit 'z', Tok.lit 'z'] (by decide) (by decide)⟩

/-- The results display after one non-enter keyup is determined by the
recomputed ranked list of the value alone. -/
theorem shown_after_key (idx : List (String × String)) (s : SState)
    (code val : String) (pat : List Tok)
    (h : compile_query val = some pat) (hcode : code ≠ "Enter") :
    (search_index idx s code val).shown =
      (if 0 < (ranked pat val.length idx).length
       then some (ranked pat val.length idx) else none) := by
  simp only [search_index, h]
  by_cases hlen : 0 < (ranked pat val.length idx).length
  · rw [if_pos hlen, if_pos hlen]
    by_cases hAD : code = "ArrowDown"
    · rw [if_pos hAD]
    · rw [if_neg hAD]
      by_cases hAU : code = "ArrowUp"
      · rw [if_pos hAU]
      · rw [if_neg hAU, if_neg hcode]
  · rw [if_neg hlen, if_neg hlen]

/-- C9: two consecutive keyups carrying the same input value (neither
committing with Enter) display the same ranked list: the matcher is a
deterministic function of the query and the index. -/
theorem C9_deterministic (idx : List (String × String)) (s : SState)
    (c₁ c₂ v : String) (h1 : c₁ ≠ "Enter") (h2 : c₂ ≠ "Enter") :
    (step idx (step idx s (.key c₁ v)) (.key c₂ v)).shown =
      (step idx s (.key c₁ v)).shown := by
  cases hm : compile_query v with
  | none => simp [step, search_index, hm]
  | some pat =>
    simp only [step]
    rw [shown_after_key idx _ c₂ v pat hm h2, shown_after_key idx s c₁ v pat hm h1]

/-- C9 witness: pressing `a` twice over the one-entry index displays the
same list both times. -/
theorem C9_deterministic_witness :
    (step idx_a (step idx_a init (.key "KeyA" "a")) (.key "KeyA" "a")).shown =
      (step idx_a init (.key "KeyA" "a")).shown :=
  C9_deterministic idx_a init "KeyA" "KeyA" "a" (by decide) (by decide)

/-- C6: in any reachable state, when Enter is pressed and the current
ranked list is non-empty, navigation goes to the URL of the first entry if
the cursor is "none" and to the URL of the entry at the cursor index
otherwise; afterwards the query is cleared and the results display hidden. -/
theorem C6_enter_commit (idx : List (String × String)) (s : SState)
    (pat : List Tok) (h : Reach idx s)
    (hc : compile_query s.query = some pat)
    (hne : ranked pat s.query.length idx ≠ []) :
    ∃ e : Entry,
      (if s.sel_idx = -1 then (ranked pat s.query.length idx).get? 0
       else (ranked pat s.query.length idx).get? s.sel_idx.toNat) = some e ∧
      (step idx s (.key "Enter" s.query)).nav = some e.url ∧
      (step idx s (.key "Enter" s.query)).query = "" ∧
      (step idx s (.key "Enter" s.query)).shown = none := by
  have hlen : 0 < (ranked pat s.query.length idx).length := List.length_pos.mpr hne
  have hinv := reach_inv h
  simp only [step, search_index, hc]
  rw [if_pos hlen, if_neg (by decide : ("Enter" : String) ≠ "ArrowDown"),
    if_neg (by decide : ("Enter" : String) ≠ "ArrowUp")]
  simp only [if_true]
  by_cases hsel : s.sel_idx = -1
  · obtain ⟨e, he⟩ : ∃ e, (ranked pat s.query.length idx).get? 0 = some e := by
      cases hr : ranked pat s.query.length idx with
      | nil => exact absurd hr hne
      | cons a l => exact ⟨a, by simp [hr]⟩
    refine ⟨e, by rw [if_pos hsel]; exact he, ?_, rfl, rfl⟩
    simp [clear_search_index, js_get, hsel]
    exact ⟨e, by rw [← List.get?_eq_getElem?]; exact he, rfl⟩
  · have hge : 0 ≤ s.sel_idx := by
      have := hinv.1
      omega
    have hlt : s.sel_idx < ((ranked pat s.query.length idx).length : Int) := by
      have hcur : cur_list idx s = ranked pat s.query.length idx :=
        cur_list_of_compile hc
      have := hinv.2 (by rw [hcur]; exact hne)
      rw [hcur] at this
      exact this
    have hnat : s.sel_idx.toNat < (ranked pat s.query.length idx).length := by
      omega
    obtain ⟨e, he⟩ : ∃ e, (ranked pat s.query.length idx).get? s.sel_idx.toNat
        = some e := ⟨_, List.get?_eq_get hnat⟩
    refine ⟨e, by rw [if_neg hsel]; exact he, ?_, rfl, rfl⟩
    simp [clear_search_index, js_get, hsel, hge]
    exact ⟨e, by rw [← List.get?_eq_getElem?]; exact he, rfl⟩

/-- C6 witness: the Enter-commit claim at the reachable state reached by
typing `a` over the one-entry index (cursor "none"): navigation goes to
`/a`, the query is cleared and the display hidden. -/
theorem C6_enter_commit_witness :
    ∃ e : Entry,
      (if st_typed.sel_idx = -1
       then (ranked [Tok.lit 'a'] st_typed.query.length idx_a).get? 0
       else (ranked [Tok.lit 'a'] st_typed.query.length idx_a).get?
         st_typed.sel_idx.toNat) = some e ∧
      (step idx_a st_typed (.key "Enter" st_typed.query)).nav = some e.url ∧
      (step idx_a st_typed (.key "Enter" st_typed.query)).query = "" ∧
      (step idx_a st_typed (.key "Enter" st_typed.query)).shown = none :=
  C6_enter_commit idx_a st_typed [Tok.lit 'a'] reach_st_typed
    (by decide) (by decide)

/-- C10: rendering marks an entry as selected exactly when the cursor is a
valid index into the list and the entry sits at the cursor position; for any
other cursor value (including "none" and out-of-range values) no entry is
marked, and the rendered list has exactly one item per entry (no
out-of-bounds access). -/
theorem C10_render_selection (sel_idx : Int) (list : List Entry) :
    (render_results sel_idx list).length = list.length ∧
    ∀ i : Fin (render_results sel_idx list).length,
      (((render_results sel_idx list).get i).cls = some "selected" ↔
        (0 ≤ sel_idx ∧ sel_idx < (list.length : Int) ∧
          ((i : Nat) : Int) = sel_idx)) := by
  have hlen : (render_results sel_idx list).length = list.length := by
    unfold render_results mark_selected
    split_ifs <;> simp
  refine ⟨hlen, fun i => ?_⟩
  have hi : (i : Nat) < list.length := by
    have h := i.isLt
    omega
  by_cases hr : 0 ≤ sel_idx ∧ sel_idx < (list.length : Int)
  · have hget : ((render_results sel_idx list).get i).cls =
        (if (i : Nat) = sel_idx.toNat then some "selected" else none) := by
      simp [render_results, mark_selected, if_pos hr, render_item, render_link]
    rw [hget]
    by_cases he : (i : Nat) = sel_idx.toNat
    · rw [if_pos he]
      exact iff_of_true rfl ⟨hr.1, hr.2, by omega⟩
    · rw [if_neg he]
      refine iff_of_false (by simp) ?_
      rintro ⟨h1, -, h3⟩
      exact he (by omega)
  · have hget : ((render_results sel_idx list).get i).cls = none := by
      simp [render_results, mark_selected, if_neg hr, render_item, render_link]
    rw [hget]
    refine iff_of_false (by simp) ?_
    rintro ⟨h1, h2, -⟩
    exact hr ⟨h1, h2⟩


end

end SearchIdx
